import Mathlib

/-!
Verification of the Zif peer-to-peer core.

This development shallowly embeds the address / entry model, the NetDB
routing table, the iterative resolver, the client message decoder, the
query handler and the peer manager of the Zif source tree, and proves
theorems about the behaviour the specification ascribes to them.

Go strings and byte slices are modelled uniformly as `List Nat` (byte
values); Go `int` is modelled as `Int`, Go `uint64` as `Nat`.  The
ed25519 signature check is an external library call and is threaded
through as a Boolean-valued parameter `sigOk pk data sig`.
-/

namespace Zif

/-- A raw node address: in the source a `[]byte` of 20 bytes (`Address.Raw`). -/
abbrev Address := List Nat

/-- Modelled from the spec: `xor(a, b)` yields a 20-byte distance computed
bytewise (the address algebra of `dht/address.go` is not among the provided
sources). -/
def addrXor (a b : Address) : Address :=
  List.zipWith (fun x y => Nat.xor x y) a b

/-- Modelled from the spec: number of leading zero bits of a single byte in
its 8-bit representation. -/
def byteLeadingZeroes (b : Nat) : Nat :=
  if b = 0 then 8
  else if b < 2 then 7
  else if b < 4 then 6
  else if b < 8 then 5
  else if b < 16 then 4
  else if b < 32 then 3
  else if b < 64 then 2
  else if b < 128 then 1
  else 0

/-- Modelled from the spec: `leading_zero_bits(d)` of a byte string, the
bucket index of a distance. -/
def leadingZeroes : Address → Nat
  | [] => 0
  | b :: rest => if b = 0 then 8 + leadingZeroes rest else byteLeadingZeroes b

/-- Modelled from the spec: the total order on distances is lexicographic on
the raw bytes (`Address.Less`). -/
def addrLess : Address → Address → Bool
  | [], [] => false
  | [], _ :: _ => true
  | _ :: _, [] => false
  | a :: as, b :: bs => if a < b then true else if b < a then false else addrLess as bs

/-- An ASCII hex digit, used by the stand-in display encoding below. -/
def hexDigit (n : Nat) : Nat :=
  if n < 10 then 48 + n else 87 + n

/-- Modelled from the spec: addresses are human-displayed via a variant of
base58check (`Address.String` in `dht/address.go`, not among the provided
sources).  Only that the encoding is a deterministic, injective function of
the 20 raw bytes matters to the claims, so a hex encoding stands in. -/
def addrString (a : Address) : List Nat :=
  (a.map (fun b => [hexDigit (b / 16), hexDigit (b % 16)])).flatten

/-- Inverse of `addrString`, standing in for `DecodeAddress`. -/
def decodeAddrString : List Nat → Address
  | c1 :: c2 :: rest =>
      ((if c1 < 58 then c1 - 48 else c1 - 87) * 16 +
        (if c2 < 58 then c2 - 48 else c2 - 87)) :: decodeAddrString rest
  | _ => []

/-- `strconv.Itoa`: ASCII decimal digits, `-` prefix for negatives. -/
def itoa (i : Int) : List Nat :=
  if i < 0 then 45 :: (Nat.toDigits 10 i.natAbs).map Char.toNat
  else (Nat.toDigits 10 i.toNat).map Char.toNat

/-- Go's `int(u)` for a `uint64` value: two's-complement wrap into int64. -/
def goInt64OfUInt64 (n : Nat) : Int :=
  let m : Nat := n % 2 ^ 64
  if m < 2 ^ 63 then (m : Int) else (m : Int) - 2 ^ 64

/-- UTF-8 encoding of a code point, for Go's `string(i)` conversion. -/
def utf8Encode (c : Nat) : List Nat :=
  if c < 128 then [c]
  else if c < 2048 then [192 + c / 64, 128 + c % 64]
  else if c < 65536 then [224 + c / 4096, 128 + (c / 64) % 64, 128 + c % 64]
  else [240 + c / 262144, 128 + (c / 4096) % 64, 128 + (c / 64) % 64, 128 + c % 64]

/-- Go's `string(i)` on an integer: the UTF-8 bytes of the code point `i`,
or the replacement character for values outside the valid range. -/
def goStringOfInt (i : Int) : List Nat :=
  if i < 0 ∨ 1114111 < i ∨ (55296 ≤ i ∧ i ≤ 57343) then [239, 191, 189]
  else utf8Encode i.toNat

/-- `dht.Entry`: the signed directory record (`part_004`). The transient
unexported `distance` field is omitted; `Seeds`/`Seeding` are `[][]byte`. -/
structure Entry where
  address : Address
  name : List Nat
  desc : List Nat
  publicAddress : List Nat
  publicKey : List Nat
  postCount : Int
  updated : Nat
  signature : List Nat
  collectionHash : List Nat
  port : Int
  seeds : List (List Nat)
  seeding : List (List Nat)
  seen : Int
deriving DecidableEq

def MaxEntryNameLength : Nat := 32
def MaxEntryDescLength : Nat := 160
def MaxEntryPublicAddressLength : Nat := 253
def MaxEntrySeeds : Nat := 100000
def Ed25519PublicKeySize : Nat := 32
def Ed25519SignatureSize : Nat := 64

/-- `Entry.String` from `part_004`: the canonical (signed) concatenation.
Named `canonicalString` here to avoid clashing with the `String` type.
Field order follows the source statement by statement, including Go's
`string(e.Port)` code-point conversion and `strconv.Itoa(int(e.Updated))`. -/
def Entry.canonicalString (e : Entry) : List Nat :=
  addrString e.address ++ e.name ++ e.desc ++ e.publicAddress ++ e.publicKey
    ++ goStringOfInt e.port ++ itoa e.postCount ++ itoa (goInt64OfUInt64 e.updated)
    ++ e.collectionHash ++ e.seeding.flatten

/-- `Entry.Bytes`: the bytes of the canonical string. -/
def Entry.Bytes (e : Entry) : List Nat :=
  e.canonicalString

/-- The canonical byte sequence as the specification words it:
address ‖ name ‖ desc ‖ public_address ‖ public_key ‖ port ‖ post_count ‖
updated ‖ collection_hash ‖ concat(seeding); `seeds` is not included. -/
def canonicalBytesSpec (e : Entry) : List Nat :=
  addrString e.address ++ e.name ++ e.desc ++ e.publicAddress ++ e.publicKey
    ++ goStringOfInt e.port ++ itoa e.postCount ++ itoa (goInt64OfUInt64 e.updated)
    ++ e.collectionHash ++ e.seeding.flatten

/-- The signature of the ed25519 verification primitive: `pk → data → sig → Bool`. -/
abbrev SigCheck := List Nat → List Nat → List Nat → Bool

/-- `Entry.Verify` from `part_004`, check for check in source order.  The
ed25519 call is the parameter `sigOk`.  Error strings are the source's. -/
def Entry.Verify (sigOk : SigCheck) (e : Entry) : Except String Unit :=
  if e.address.length ≠ 20 then .error "Address size invalid"
  else if MaxEntryNameLength < e.name.length then .error "Entry name is too long"
  else if MaxEntryDescLength < e.desc.length then .error "Entry description is too long"
  else if MaxEntrySeeds < e.seeds.length then .error "Entry has too many seeds"
  else if e.publicKey.length < Ed25519PublicKeySize then .error "Public key too small"
  else if e.signature.length < Ed25519SignatureSize then .error "Signature too small"
  else if sigOk e.publicKey e.Bytes e.signature = false then .error "Failed to verify signature"
  else if e.publicAddress.length = 0 then .error "Public address must be set"
  else if MaxEntryPublicAddressLength ≤ e.publicAddress.length then
    .error "Public address is too large (253 char max)"
  else if 65535 < e.port then .error "Port too large"
  else .ok ()

/-- A signature checker that accepts everything, standing in for the
existence of genuinely signed entries in concrete examples. -/
def sigOkAll : SigCheck := fun _ _ _ => true

/-- A concrete entry whose public address has `k` characters and whose other
fields pass every `Verify` check. -/
def entryPubAddr (k : Nat) : Entry :=
  { address := List.replicate 20 0
    name := []
    desc := []
    publicAddress := List.replicate k 97
    publicKey := List.replicate 32 0
    postCount := 0
    updated := 0
    signature := List.replicate 64 0
    collectionHash := []
    port := 0
    seeds := []
    seeding := []
    seen := 0 }

/-- Concrete entry for the port-bound witness: negative port. -/
def entryNegPort : Entry :=
  { entryPubAddr 1 with port := -1 }

/-- Concrete entries differing only in their `Seeds` lists. -/
def entrySeedsA : Entry := entryPubAddr 1

def entrySeedsB : Entry :=
  { entryPubAddr 1 with seeds := List.replicate 100001 [] }

/-! ## NetDB: routing table and entry store (`peer.go`, `dht/sql.go`) -/

def BucketSize : Nat := 20

def AddressBinarySize : Nat := 20

/-- One row of the `entry` SQL table (schema in `dht/sql.go`). -/
structure Row where
  id : Nat
  address : List Nat
  name : List Nat
  desc : List Nat
  publicAddress : List Nat
  port : Int
  publicKey : List Nat
  signature : List Nat
  collectionHash : List Nat
  postCount : Int
  seedCount : Nat
  seedingCount : Nat
  updated : Nat
  seen : Int
deriving DecidableEq

/-- The `NetDB` state: the in-memory bucket table, the node's own address
and the SQLite store (entry rows, seed pairs, full-text rows, next rowid). -/
structure NetDB where
  addr : Address
  table : List (List Address)
  rows : List Row
  seedRows : List (Nat × Nat)
  ftsRows : List (Nat × List Nat × List Nat)
  nextId : Nat
deriving DecidableEq

/-- The in-bucket update performed by `insertIntoTable`: locate the address;
if present remove it from its old position, else if the bucket is full drop
the tail; finally push the address at the front. -/
def insertIntoBucket (bucket : List Address) (addr : Address) : List Address :=
  match bucket.findIdx? (fun i => i = addr) with
  | some found => addr :: (bucket.take found ++ bucket.drop (found + 1))
  | none =>
      if bucket.length = BucketSize then addr :: bucket.dropLast
      else addr :: bucket

/-- `NetDB.insertIntoTable`: the bucket index is the leading-zero count of
the XOR distance to the node's own address.  (`SaveTable` is disk I/O with
no observable state and is omitted.) -/
def NetDB.insertIntoTable (ndb : NetDB) (addr : Address) : NetDB :=
  let index := leadingZeroes (addrXor addr ndb.addr)
  let bucket := ndb.table.getD index []
  { ndb with table := ndb.table.set index (insertIntoBucket bucket addr) }

/-- The column values bound by `sqlInsertEntry` / `sqlUpdateEntry`. -/
def rowOfEntry (e : Entry) (id : Nat) : Row :=
  { id := id
    address := addrString e.address
    name := e.name
    desc := e.desc
    publicAddress := e.publicAddress
    port := e.port
    publicKey := e.publicKey
    signature := e.signature
    collectionHash := e.collectionHash
    postCount := e.postCount
    seedCount := e.seeds.length
    seedingCount := e.seeding.length
    updated := e.updated
    seen := e.seen }

/-- SQLite executing `sqlUpdateEntry` (`UPDATE entry SET ... WHERE
address=?`): every row whose address matches is rewritten keeping its id,
and `RowsAffected` (sqlite3_changes) counts each matched row whether or not
the new values differ from the old ones. -/
def NetDB.execUpdateEntry (ndb : NetDB) (e : Entry) (s : List Nat) : Int × NetDB :=
  ( (ndb.rows.countP (fun r => r.address = s) : Int)
  , { ndb with rows := ndb.rows.map (fun r => if r.address = s then rowOfEntry e r.id else r) } )

/-- `NetDB.Update`: verify, then run the update statement.  The result is
`(affected, error, state)` mirroring the Go `(int64, error)` pair. -/
def NetDB.Update (sigOk : SigCheck) (ndb : NetDB) (e : Entry) : Int × Option String × NetDB :=
  match Entry.Verify sigOk e with
  | .error msg => (0, some msg, ndb)
  | .ok () =>
      ((ndb.execUpdateEntry e (addrString e.address)).1, none,
        (ndb.execUpdateEntry e (addrString e.address)).2)

/-- `NetDB.insertIntoDB`: `INSERT OR IGNORE` on the unique address column —
zero rows affected if the address already has a row, in which case the
full-text insert is skipped; otherwise the row and its fts mirror go in. -/
def NetDB.insertIntoDB (ndb : NetDB) (e : Entry) : Int × Option String × NetDB :=
  if ndb.rows.any (fun r => r.address = addrString e.address) then (0, none, ndb)
  else
    (1, none,
      { ndb with
          rows := ndb.rows ++ [rowOfEntry e ndb.nextId]
          nextId := ndb.nextId + 1
          ftsRows := ndb.ftsRows ++ [(ndb.nextId, e.name, e.desc)] })

def NetDB.queryIdByAddress (ndb : NetDB) (s : List Nat) : Option Nat :=
  (ndb.rows.find? (fun r => r.address = s)).map (fun r => r.id)

/-- `NetDB.InsertSeed`: map both addresses to row ids (a missing row makes
the `Scan` fail with sql.ErrNoRows) and insert the unique pair. -/
def NetDB.InsertSeed (ndb : NetDB) (entry seed : Address) : Option String × NetDB :=
  match ndb.queryIdByAddress (addrString entry), ndb.queryIdByAddress (addrString seed) with
  | some entryId, some seedId =>
      if (seedId, entryId) ∈ ndb.seedRows then (none, ndb)
      else (none, { ndb with seedRows := ndb.seedRows ++ [(seedId, entryId)] })
  | _, _ => (some "sql: no rows in result set", ndb)

/-- Sequential seed insertion, stopping at the first error. -/
def NetDB.insertSeedList (ndb : NetDB) : List (Address × Address) → Option String × NetDB
  | [] => (none, ndb)
  | p :: rest =>
      match ndb.InsertSeed p.1 p.2 with
      | (some msg, ndb') => (some msg, ndb')
      | (none, ndb') => ndb'.insertSeedList rest

/-- `NetDB.insertEntrySeeds`: first every peer this entry is seeding
(`InsertSeed peer entry.Address`), then this entry's own seeds
(`InsertSeed entry.Address peer`). -/
def NetDB.insertEntrySeeds (ndb : NetDB) (e : Entry) : Option String × NetDB :=
  ndb.insertSeedList
    ((e.seeding.map (fun i => (i, e.address))) ++ (e.seeds.map (fun i => (e.address, i))))

/-- `NetDB.Insert`: verify; update the in-memory bucket; try the update
statement first and fall back to the insert statement; finally register the
seed relations.  Result mirrors the Go `(int64, error)` pair. -/
def NetDB.Insert (sigOk : SigCheck) (ndb : NetDB) (e : Entry) : Int × Option String × NetDB :=
  match Entry.Verify sigOk e with
  | .error msg => (0, some msg, ndb)
  | .ok () =>
      match (ndb.insertIntoTable e.address).Update sigOk e with
      | (_, some msg, ndb2) => (0, some msg, ndb2)
      | (affected, none, ndb2) =>
          if 0 < affected then (affected, none, ndb2)
          else
            match ndb2.insertIntoDB e with
            | (_, some msg, ndb3) => (0, some msg, ndb3)
            | (affected2, none, ndb3) =>
                (affected2, (ndb3.insertEntrySeeds e).1, (ndb3.insertEntrySeeds e).2)

/-- `querySeeds`: addresses of the entries recorded as seeds for row `id`. -/
def NetDB.querySeedsOf (ndb : NetDB) (id : Nat) : List Address :=
  (ndb.seedRows.filter (fun p => p.2 = id)).filterMap
    (fun p => (ndb.rows.find? (fun r => r.id = p.1)).map (fun r => decodeAddrString r.address))

/-- `querySeeding`: addresses of the entries row `id` is a seed for. -/
def NetDB.querySeedingOf (ndb : NetDB) (id : Nat) : List Address :=
  (ndb.seedRows.filter (fun p => p.1 = id)).filterMap
    (fun p => (ndb.rows.find? (fun r => r.id = p.2)).map (fun r => decodeAddrString r.address))

/-- Rebuilding a `dht.Entry` from a row plus its materialized seed lists
(`Query` + `addSeedToEntry`). -/
def entryOfRow (r : Row) (seeds seeding : List Address) : Entry :=
  { address := decodeAddrString r.address
    name := r.name
    desc := r.desc
    publicAddress := r.publicAddress
    publicKey := r.publicKey
    postCount := r.postCount
    updated := r.updated
    signature := r.signature
    collectionHash := r.collectionHash
    port := r.port
    seeds := seeds
    seeding := seeding
    seen := r.seen }

/-- `NetDB.Query`: look the address up; a missing row is `(nil, -1, nil)`;
a hit materializes seeds/seeding and re-inserts the address into the
in-memory table so hot addresses stay resident. -/
def NetDB.Query (ndb : NetDB) (addr : Address) : Option Entry × Int × NetDB :=
  match ndb.rows.find? (fun r => r.address = addrString addr) with
  | none => (none, -1, ndb)
  | some r =>
      let e := entryOfRow r (ndb.querySeedsOf r.id) (ndb.querySeedingOf r.id)
      (some e, (r.id : Int), ndb.insertIntoTable e.address)

/-- `queryAddresses`: query each address and append the result — the Go code
appends `kv` whenever `err` is nil, including a nil `kv` for an address with
no row. -/
def NetDB.queryAddresses (ndb : NetDB) : List Address → List (Option Entry) × NetDB
  | [] => ([], ndb)
  | a :: rest =>
      ((ndb.Query a).1 :: ((ndb.Query a).2.2.queryAddresses rest).1,
        ((ndb.Query a).2.2.queryAddresses rest).2)

/-- The inner bucket walk of `FindClosest`: stop as soon as `ret` reaches
`BucketSize`, otherwise query each address and append the result. -/
def NetDB.collectBucket (ndb : NetDB) : List Address → List (Option Entry) →
    List (Option Entry) × NetDB
  | [], ret => (ret, ndb)
  | a :: rest, ret =>
      if BucketSize ≤ ret.length then (ret, ndb)
      else (ndb.Query a).2.2.collectBucket rest (ret ++ [(ndb.Query a).1])

/-- The first block of the `FindClosest` loop body: when `index - i ≥ 0`,
walk the bucket at `index - i`. -/
def NetDB.passLow (ndb : NetDB) (index i : Nat) (ret : List (Option Entry)) :
    List (Option Entry) × NetDB :=
  if i ≤ index then ndb.collectBucket (ndb.table.getD (index - i) []) ret
  else (ret, ndb)

/-- The second block of the `FindClosest` loop body: when
`index + i < len(addr.Raw)*8`, walk the bucket at `index + i`. -/
def NetDB.passHigh (st : List (Option Entry) × NetDB) (addrBits index i : Nat) :
    List (Option Entry) × NetDB :=
  if index + i < addrBits then
    st.2.collectBucket (st.2.table.getD (index + i) []) st.1
  else st

/-- The outward expansion loop of `FindClosest`.  The Go loop condition is
`(index-i >= 0 || index+i <= len(addr.Raw)*8) && len(ret) < BucketSize`; it
certainly fails once `i` exceeds both `index` and `len(addr.Raw)*8 - index`,
so the fuel passed by `FindClosest` below always reaches that exit and the
fuel-out branch is unreachable. -/
def NetDB.findClosestLoop (ndb : NetDB) (addr : Address) (index : Nat)
    (ret : List (Option Entry)) (i : Nat) : Nat → List (Option Entry) × NetDB
  | 0 => (ret, ndb)
  | fuel + 1 =>
      if (i ≤ index ∨ index + i ≤ addr.length * 8) ∧ ret.length < BucketSize then
        (NetDB.passHigh (ndb.passLow index i ret) (addr.length * 8) index i).2.findClosestLoop
          addr index (NetDB.passHigh (ndb.passLow index i ret) (addr.length * 8) index i).1
          (i + 1) fuel
      else (ret, ndb)

/-- `NetDB.FindClosest`: if the target's own bucket is full return its
queried contents, otherwise expand outwards bucket by bucket. -/
def NetDB.FindClosest (ndb : NetDB) (addr : Address) : List (Option Entry) × NetDB :=
  if (ndb.table.getD (leadingZeroes (addrXor addr ndb.addr)) []).length = BucketSize then
    ndb.queryAddresses (ndb.table.getD (leadingZeroes (addrXor addr ndb.addr)) [])
  else
    ndb.findClosestLoop addr (leadingZeroes (addrXor addr ndb.addr)) [] 0
      (addr.length * 8 + leadingZeroes (addrXor addr ndb.addr) + 2)

/-! ## The iterative resolver (`part_001`) -/

/-- Resolver-side errors, matching the error values of `part_001` and the
errors a `peer` request can surface. -/
inductive RErr where
  | recursionLimit
  | peerUnreachable
  | peerReturnedNo
  | noEntries
  | addressUnresolvable
deriving DecidableEq

/-- How the remote peer at a given address answers during one resolution:
whether dialing it succeeds, and the `(*dht.Entry, error)` results of
`peer.Query(target)` and `peer.FindClosest(target)`. -/
structure PeerBeh where
  connectOk : Bool
  query : Option Entry × Option RErr
  findClosest : List Entry × Option RErr

/-- The inner loop of `resolveStep` over the entries returned by
`FindClosest`: stop on an error or a non-nil result, otherwise continue with
the depth left behind by the recursive call.  The recursive step function is
passed in as `stepFn`. -/
def loopUpTo (stepFn : Nat → Entry → (Option Entry × Option RErr) × Nat) :
    Nat → List Entry → (Option Entry × Option RErr) × Nat
  | d, [] => ((none, some .noEntries), d)
  | d, e :: rest =>
      match stepFn d e with
      | ((_, some err), d2) => ((none, some err), d2)
      | ((some result, none), d2) => ((some result, none), d2)
      | ((none, none), d2) => loopUpTo stepFn d2 rest

/-- `PeerManager.resolveStep`.  The Go function threads one shared `*int`
depth counter through every recursive call; here the counter is explicit
state: the pair returned carries the remaining depth.  The first argument is
a recursion bound used only to present the nested recursion structurally: a
call at depth `d` only ever recurses at depths below `d`, so with the bound
set to the depth (as `resolveStep` does) the bound-exhausted branch is
unreachable. -/
def stepUpTo (net : Address → PeerBeh) (target : Address) :
    Nat → Nat → Entry → (Option Entry × Option RErr) × Nat
  | _, 0, _ => ((none, some .recursionLimit), 0)
  | 0, d + 1, _ => ((none, some .recursionLimit), d)
  | bound + 1, d + 1, e =>
      if (net e.address).connectOk = false then ((none, some .peerUnreachable), d)
      else
        match (net e.address).query with
        | (_, some err) => ((none, some err), d)
        | (some kv, none) => ((some kv, none), d)
        | (none, none) =>
            match (net e.address).findClosest with
            | (_, some err) => ((none, some err), d)
            | (closest, none) => loopUpTo (stepUpTo net target bound) d closest

/-- `resolveStep` proper: the recursion bound is the depth itself. -/
def resolveStep (net : Address → PeerBeh) (target : Address) (d : Nat) (e : Entry) :
    (Option Entry × Option RErr) × Nat :=
  stepUpTo net target d d e

/-- The loop over the initial closest set in `PeerManager.Resolve`:
`RecursionLimit` aborts, other errors and non-target entries are skipped,
an entry with the target address is returned. -/
def resolveTop (net : Address → PeerBeh) (target : Address) :
    List Entry → Nat → Option Entry × Option RErr
  | [], _ => (none, some .addressUnresolvable)
  | e :: rest, d =>
      match resolveStep net target d e with
      | ((_, some .recursionLimit), _) => (none, some .recursionLimit)
      | ((_, some _), d2) => resolveTop net target rest d2
      | ((none, none), d2) => resolveTop net target rest d2
      | ((some entry, none), d2) =>
          if entry.address = target then (some entry, none)
          else resolveTop net target rest d2

/-- `PeerManager.Resolve`: self short-circuit, local store hit, then the
walk over the local `FindClosest` set with the shared depth budget 6.  The
local store answer and closest set are the inputs `localQuery`/`closest`
(results of the `NetDB` operations above). -/
def Resolve (net : Address → PeerBeh) (localAddr : Address) (localEntry : Entry)
    (localQuery : Option Entry) (closest : List Entry) (target : Address) :
    Option Entry × Option RErr :=
  if target = localAddr then (some localEntry, none)
  else
    match localQuery with
    | some kv => (some kv, none)
    | none => resolveTop net target closest 6

/-! ## The message decoder byte limiter (`proto/client.go`) -/

/-- `io.LimitedReader` from the Go standard library: reads from the
underlying reader but stops with EOF once `n` bytes have been consumed. -/
structure LimitedReader where
  n : Int
deriving DecidableEq

/-- One `Read(p)` call through the limiter: `req` is `len(p)`; `avail` is
how many bytes the underlying connection delivers on this call.  Returns
the bytes consumed from the connection and the updated limiter. -/
def LimitedReader.read (l : LimitedReader) (req avail : Nat) : Nat × LimitedReader :=
  if l.n ≤ 0 then (0, l)
  else
    let p : Int := min (req : Int) l.n
    let served : Int := min p (avail : Int)
    (served.toNat, ⟨l.n - served⟩)

/-- A msgpack decode, seen as the sequence of reads it issues against the
limiter; returns the total bytes consumed from the connection. -/
def runReads : LimitedReader → List (Nat × Nat) → Nat × LimitedReader
  | l, [] => (0, l)
  | l, r :: rs =>
      ((l.read r.1 r.2).1 + (runReads (l.read r.1 r.2).2 rs).1,
        (runReads (l.read r.1 r.2).2 rs).2)

/-- `proto.NewClient`: the limiter starts with a budget of
`common.MaxMessageSize` (the constant lives in the `common` package, not
among the provided sources; the spec gives a 1 MiB default — it is the
parameter `mms` here). -/
def NewClient (mms : Nat) : LimitedReader := ⟨(mms : Int)⟩

/-- `Client.ReadMessage`: run the decoder against the limiter; on a decode
error reset the budget and return the error, on success reset the budget
and return the message.  Result is `(bytes consumed, decode succeeded,
limiter state)`. -/
def ReadMessage (mms : Nat) (l : LimitedReader) (reads : List (Nat × Nat))
    (decodeOk : Bool) : Nat × Bool × LimitedReader :=
  if decodeOk then ((runReads l reads).1, true, ⟨(mms : Int)⟩)
  else ((runReads l reads).1, false, ⟨(mms : Int)⟩)

/-! ## The query handler and the query client (`part_003`, `proto/client.go`) -/

/-- Modelled from the spec: the protocol header strings (the `Proto*`
constants live in `proto/proto.go`, not among the provided sources; spec
§4.3 lists the closed header set). -/
def ProtoOk : String := "ok"

def ProtoNo : String := "no"

def ProtoDhtQuery : String := "dht.query"

/-- A message written on a stream: its header and its payload, which for
the query exchange is an entry or msgpack nil. -/
structure WireMessage where
  header : String
  content : Option Entry
deriving DecidableEq

/-- `LocalPeer.HandleQuery`: the sequence of messages the handler writes to
the stream for a `dht.query` on `target`.  For a miss the source writes the
`no` message and then — there is no early return — also writes the
`dht.query` message around the nil entry. -/
def HandleQuery (localAddr : Address) (localEntry : Entry)
    (dbQuery : Address → Option Entry) (target : Address) : List WireMessage :=
  if target = localAddr then [⟨ProtoDhtQuery, some localEntry⟩]
  else
    (if dbQuery target = none then [⟨ProtoNo, none⟩] else [])
      ++ [⟨ProtoDhtQuery, dbQuery target⟩]

/-- `Client.Query`: read exactly one reply message; a `no` header is the
peer-returned-no error; otherwise decode and verify the entry. -/
def ClientQuery (sigOk : SigCheck) (replies : List WireMessage) : Except String Entry :=
  match replies with
  | [] => .error "EOF"
  | m :: _ =>
      if m.header = ProtoNo then .error "Peer returned no"
      else
        match m.content with
        | none => .error "msgpack: invalid code"
        | some e =>
            match Entry.Verify sigOk e with
            | .error s => .error s
            | .ok () => .ok e

/-! ## The peer manager's LRU eviction (`part_001`) -/

/-- The victim scan in `PeerManager.SetPeer`: `oldestKey` starts empty and
`oldestValue` starts at the current time; the loop body assigns only
`oldestKey` — the source never updates `oldestValue` when it finds an older
peer.  `peerSeen` is the map in iteration order. -/
def scanOldest (now : Int) (peerSeen : List (List Nat × Int)) : List Nat :=
  (peerSeen.foldl
    (fun acc kv => if kv.2 < acc.2 then (kv.1, acc.2) else acc)
    ([], now)).1

/-- The peer-manager maps touched by eviction: the peer set and the
last-seen map, each in iteration order. -/
structure PMState where
  peers : List (List Nat)
  peerSeen : List (List Nat × Int)
deriving DecidableEq

/-- `PeerManager.HandleCloseConnection`: remove the peer from both maps. -/
def HandleCloseConnection (st : PMState) (key : List Nat) : PMState :=
  { peers := st.peers.filter (fun k => k != key)
    peerSeen := st.peerSeen.filter (fun kv => kv.1 != key) }

/-- The eviction loop at the end of `SetPeer`: while the peer count exceeds
`maxPeers`, scan for a victim, terminate it and drop it from both maps; a
failed `peers.Get` breaks the loop.  Each removal shrinks the map, so the
peer count is enough fuel. -/
def setPeerEvict (maxPeers : Nat) (now : Int) : PMState → Nat → PMState
  | st, 0 => st
  | st, fuel + 1 =>
      if st.peers.length ≤ maxPeers then st
      else
        let oldestKey := scanOldest now st.peerSeen
        if oldestKey ∈ st.peers then
          setPeerEvict maxPeers now (HandleCloseConnection st oldestKey) fuel
        else st

/-! ## Concrete states used by the witnesses and counterexamples -/

/-- A fresh `NetDB` for a node at `self`: 160 empty buckets, empty store. -/
def ndbBase (self : Address) : NetDB :=
  { addr := self
    table := List.replicate (AddressBinarySize * 8) []
    rows := []
    seedRows := []
    ftsRows := []
    nextId := 1 }

def addrSelfC1 : Address := List.replicate 19 0 ++ [1]

def addrA1 : Address := List.replicate 19 0 ++ [4]

def addrA2 : Address := List.replicate 19 0 ++ [6]

def entryA1 : Entry := { entryPubAddr 1 with address := addrA1 }

def entryA2 : Entry := { entryPubAddr 1 with address := addrA2 }

/-- A reachable `NetDB` state: insert the entries for `addrA1` then `addrA2`
(both land in bucket 157, most recent first). -/
def ndbC1 : NetDB :=
  (NetDB.Insert sigOkAll (NetDB.Insert sigOkAll (ndbBase addrSelfC1) entryA1).2.2 entryA2).2.2

/-- Chain address `i`: 18 zero bytes and the 16-bit big-endian value `i`. -/
def chainAddr (i : Nat) : Address := List.replicate 18 0 ++ [i / 256, i % 256]

/-- Read the chain index back out of an address. -/
def chainIdx (a : Address) : Nat :=
  match a.reverse with
  | lo :: hi :: _ => hi * 256 + lo
  | _ => 0

/-- The entry being resolved in the chain scenarios (address `chainAddr 0`). -/
def chainTargetEntry : Entry := { entryPubAddr 1 with address := List.replicate 20 0 }

def chainEntry (i : Nat) : Entry := { entryPubAddr 1 with address := chainAddr i }

/-- A resolution chain of `n` peers: peer `i < n` does not have the target
(`Query` gives nil) and points at peer `i + 1`; peer `n` returns the target
entry.  This models the spec's recursion-cap scenario, with the remote
`Query`/`FindClosest` calls as environment answers. -/
def chainNet (n : Nat) : Address → PeerBeh := fun a =>
  let i := chainIdx a
  if i = n then
    { connectOk := true, query := (some chainTargetEntry, none), findClosest := ([], none) }
  else
    { connectOk := true, query := (none, none), findClosest := ([chainEntry (i + 1)], none) }

/-- The local peer's own address in the chain scenarios. -/
def chainLocalAddr : Address := chainAddr 999

/-- The peer-manager state of the spec's LRU scenario: three peers last seen
at times 0, 1 and 2, in that iteration order. -/
def pmC8 : PMState :=
  { peers := [[1], [2], [3]]
    peerSeen := [([1], 0), ([2], 1), ([3], 2)] }

/-- A local address distinct from the query target in the C7 scenario. -/
def c7LocalAddr : Address := List.replicate 19 0 ++ [9]

/-- The query target of the C7 scenario (not in the store). -/
def c7Target : Address := List.replicate 20 0

/-! ## Theorems -/

set_option maxRecDepth 8192 in
/-- C4: the spec says `Entry.Verify` accepts a public address of any length
from 1 to 253 inclusive and rejects empty and longer ones.  The code rejects
a 253-character public address — the check is `>=` against the maximum of
253 even though the accompanying error message reads "253 char max" — while
252 characters are accepted and the empty public address is rejected. -/
theorem c4_public_address_boundary :
    Entry.Verify sigOkAll (entryPubAddr 253)
        = .error "Public address is too large (253 char max)" ∧
    Entry.Verify sigOkAll (entryPubAddr 252) = .ok () ∧
    Entry.Verify sigOkAll (entryPubAddr 0) = .error "Public address must be set" :=
  ⟨rfl, rfl, rfl⟩

/-- C10: `Entry.Verify` imposes no lower bound on the port field: for every
entry passing all the other checks, the verdict is `ok` exactly when
`port ≤ 65535`, so in particular every negative port is accepted. -/
theorem c10_no_port_lower_bound (sigOk : SigCheck) (e : Entry)
    (h1 : e.address.length = 20) (h2 : e.name.length ≤ 32) (h3 : e.desc.length ≤ 160)
    (h4 : e.seeds.length ≤ 100000) (h5 : 32 ≤ e.publicKey.length)
    (h6 : 64 ≤ e.signature.length)
    (h7 : sigOk e.publicKey e.Bytes e.signature = true)
    (h8 : 1 ≤ e.publicAddress.length) (h9 : e.publicAddress.length ≤ 252) :
    (e.port < 0 → Entry.Verify sigOk e = .ok ()) ∧
    (Entry.Verify sigOk e = .ok () ↔ e.port ≤ 65535) := by
  have hv : Entry.Verify sigOk e =
      if 65535 < e.port then .error "Port too large" else .ok () := by
    unfold Entry.Verify
    unfold MaxEntryNameLength MaxEntryDescLength MaxEntrySeeds Ed25519PublicKeySize
      Ed25519SignatureSize MaxEntryPublicAddressLength
    rw [if_neg (by omega), if_neg (by omega), if_neg (by omega), if_neg (by omega),
      if_neg (by omega), if_neg (by omega), if_neg (by simp [h7]), if_neg (by omega),
      if_neg (by omega)]
  constructor
  · intro hneg
    rw [hv, if_neg (by omega)]
  · rw [hv]
    constructor
    · intro h
      by_contra hc
      rw [if_pos (by omega)] at h
      exact absurd h (by simp)
    · intro h
      rw [if_neg (by omega)]

/-- Witness for C10 at a concrete entry with port `-1`. -/
theorem c10_no_port_lower_bound_witness :
    Entry.Verify sigOkAll entryNegPort = .ok () ∧ entryNegPort.port < 0 :=
  ⟨(c10_no_port_lower_bound sigOkAll entryNegPort rfl (by decide) (by decide) (by decide)
      (by decide) (by decide) rfl (by decide) (by decide)).1 (by decide), by decide⟩

/-- C9-counterexample: two entries that differ only in `Seeds` have equal
canonical bytes, yet `Verify` accepts one and rejects the other through the
seed-count check, so "Verify accepts one iff it accepts the other" fails. -/
theorem c9_seeds_counterexample :
    Entry.Bytes entrySeedsA = Entry.Bytes entrySeedsB ∧
    entrySeedsB = { entrySeedsA with seeds := entrySeedsB.seeds } ∧
    entrySeedsA.seeds.length = 0 ∧ entrySeedsB.seeds.length = 100001 ∧
    Entry.Verify sigOkAll entrySeedsA = .ok () ∧
    Entry.Verify sigOkAll entrySeedsB = .error "Entry has too many seeds" := by
  refine ⟨rfl, rfl, rfl, ?_, rfl, ?_⟩
  · rw [show entrySeedsB.seeds = List.replicate 100001 [] from rfl, List.length_replicate]
  · have hlen : entrySeedsB.seeds.length = 100001 := by
      rw [show entrySeedsB.seeds = List.replicate 100001 [] from rfl, List.length_replicate]
    unfold Entry.Verify
    rw [if_neg (by decide), if_neg (by decide), if_neg (by decide),
      if_pos (by rw [hlen]; decide)]

/-- Helper: `Verify` does not depend on `Seeds` except through the
seed-count check, so replacing the seed list by another within the bound
leaves the verdict unchanged. -/
theorem verify_seeds_within_bound (sigOk : SigCheck) (e : Entry) (s : List (List Nat))
    (hs : s.length ≤ 100000) (he : e.seeds.length ≤ 100000) :
    Entry.Verify sigOk { e with seeds := s } = Entry.Verify sigOk e := by
  unfold Entry.Verify
  unfold MaxEntrySeeds
  rw [if_neg (c := 100000 < s.length) (by omega), if_neg (c := 100000 < e.seeds.length) (by omega)]
  rfl

/-- C9-amended: the canonical signed bytes concatenate, in order, address,
name, desc, public_address, public_key, port, post_count, updated,
collection_hash and the seeding list, and omit `seeds`; hence two entries
differing only in `Seeds` have equal canonical bytes, and `Verify` gives
the same verdict on them provided both seed lists are within the 100000
bound (the seed-count check is the one check that reads `Seeds`). -/
theorem c9_canonical_bytes (sigOk : SigCheck) (e1 e2 : Entry)
    (hdiff : e2 = { e1 with seeds := e2.seeds })
    (hs1 : e1.seeds.length ≤ 100000) (hs2 : e2.seeds.length ≤ 100000) :
    Entry.Bytes e1 = canonicalBytesSpec e1 ∧
    Entry.Bytes e1 = Entry.Bytes e2 ∧
    Entry.Verify sigOk e1 = Entry.Verify sigOk e2 := by
  refine ⟨rfl, ?_, ?_⟩
  · rw [hdiff]
    rfl
  · rw [hdiff, verify_seeds_within_bound sigOk e1 e2.seeds (by omega) hs1]

/-- Witness for C9-amended at concrete entries. -/
theorem c9_canonical_bytes_witness :
    Entry.Bytes entrySeedsA = canonicalBytesSpec entrySeedsA ∧
    Entry.Bytes entrySeedsA = Entry.Bytes { entrySeedsA with seeds := [[]] } ∧
    Entry.Verify sigOkAll entrySeedsA
        = Entry.Verify sigOkAll { entrySeedsA with seeds := [[]] } :=
  c9_canonical_bytes sigOkAll entrySeedsA { entrySeedsA with seeds := [[]] } rfl
    (by decide) (by decide)

/-- C8: with `max_peers = 2` and peers P1, P2, P3 last seen at times 0, 1
and 2 (iteration order P1, P2, P3), the eviction loop of `SetPeer` removes
P3, the peer that iterates last among those seen before `now` — not the
least recently seen P1 — because the scan assigns `oldestKey` without ever
updating `oldestValue`.  P1 has the minimal timestamp, yet it survives. -/
theorem c8_lru_scan_bug :
    (setPeerEvict 2 3 pmC8 pmC8.peers.length).peers = [[1], [2]] ∧
    scanOldest 3 pmC8.peerSeen = [3] ∧
    pmC8.peerSeen.all (fun kv => (0 : Int) ≤ kv.2) = true ∧
    ([1], (0 : Int)) ∈ pmC8.peerSeen :=
  ⟨rfl, rfl, by decide, by decide⟩

/-- C7-counterexample: for a `dht.query` on an address that is neither the
local peer nor stored, the handler writes two messages — the `no` reply and
then a `dht.query` envelope around the nil entry — not exactly one. -/
theorem c7_two_replies_counterexample :
    HandleQuery c7LocalAddr (entryPubAddr 1) (fun _ => none) c7Target
        = [⟨ProtoNo, none⟩, ⟨ProtoDhtQuery, none⟩] ∧
    (HandleQuery c7LocalAddr (entryPubAddr 1) (fun _ => none) c7Target).length = 2 :=
  ⟨rfl, rfl⟩

/-- C7-amended: when the queried address is neither the local peer nor in
the store, `HandleQuery` writes the `no` reply followed by a `dht.query`
message with nil content (two messages), and the querying client's `Query`
reads the first message and fails with the peer-returned-no error. -/
theorem c7_query_miss (localAddr : Address) (localEntry : Entry)
    (dbQuery : Address → Option Entry) (target : Address) (sigOk : SigCheck)
    (hmiss : dbQuery target = none) (hne : target ≠ localAddr) :
    HandleQuery localAddr localEntry dbQuery target
        = [⟨ProtoNo, none⟩, ⟨ProtoDhtQuery, none⟩] ∧
    ClientQuery sigOk (HandleQuery localAddr localEntry dbQuery target)
        = .error "Peer returned no" := by
  have h : HandleQuery localAddr localEntry dbQuery target
      = [⟨ProtoNo, none⟩, ⟨ProtoDhtQuery, none⟩] := by
    unfold HandleQuery
    rw [if_neg hne, hmiss]
    rfl
  exact ⟨h, by rw [h]; rfl⟩

/-- Witness for C7-amended at the concrete miss scenario. -/
theorem c7_query_miss_witness :
    HandleQuery c7LocalAddr (entryPubAddr 1) (fun _ => none) c7Target
        = [⟨ProtoNo, none⟩, ⟨ProtoDhtQuery, none⟩] ∧
    ClientQuery sigOkAll (HandleQuery c7LocalAddr (entryPubAddr 1) (fun _ => none) c7Target)
        = .error "Peer returned no" :=
  c7_query_miss c7LocalAddr (entryPubAddr 1) (fun _ => none) c7Target sigOkAll rfl (by decide)

/-- Helper: a run of decoder reads never consumes more than the limiter's
remaining budget. -/
theorem runReads_le (rs : List (Nat × Nat)) :
    ∀ l : LimitedReader, (runReads l rs).1 ≤ l.n.toNat := by
  induction rs with
  | nil =>
      intro l
      simp [runReads]
  | cons r rs ih =>
      intro l
      by_cases h : l.n ≤ 0
      · have hr : l.read r.1 r.2 = (0, l) := by
          unfold LimitedReader.read
          rw [if_pos h]
        simp only [runReads, hr]
        have := ih l
        omega
      · have h0 : (0 : Int) ≤ min (min (r.1 : Int) l.n) (r.2 : Int) := by omega
        have hle : min (min (r.1 : Int) l.n) (r.2 : Int) ≤ l.n := by omega
        have hr : l.read r.1 r.2 =
            ((min (min (r.1 : Int) l.n) (r.2 : Int)).toNat,
              ⟨l.n - min (min (r.1 : Int) l.n) (r.2 : Int)⟩) := by
          unfold LimitedReader.read
          rw [if_neg h]
        simp only [runReads, hr]
        have := ih ⟨l.n - min (min (r.1 : Int) l.n) (r.2 : Int)⟩
        simp only at this
        omega

/-- C6: every message read through `Client.ReadMessage` consumes at most
`max_message_size` bytes from the connection, and the limiter budget is
reset to `max_message_size` after both a successful decode and a decode
error, so each subsequent message gets the full budget; `NewClient` starts
with the full budget. -/
theorem c6_message_size_cap (mms : Nat) (l : LimitedReader) (reads : List (Nat × Nat))
    (decodeOk : Bool) (h : l.n = (mms : Int)) :
    (ReadMessage mms l reads decodeOk).1 ≤ mms ∧
    (ReadMessage mms l reads decodeOk).2.2.n = (mms : Int) ∧
    (NewClient mms).n = (mms : Int) := by
  have hle := runReads_le reads l
  rw [h] at hle
  refine ⟨?_, ?_, rfl⟩
  · unfold ReadMessage
    cases decodeOk <;> simpa using (by omega : (runReads l reads).1 ≤ mms)
  · unfold ReadMessage
    cases decodeOk <;> rfl

/-- Witness for C6 at a concrete limiter state and read trace. -/
theorem c6_message_size_cap_witness :
    (ReadMessage 8 ⟨8⟩ [(5, 10), (6, 6)] false).1 ≤ 8 ∧
    (ReadMessage 8 ⟨8⟩ [(5, 10), (6, 6)] false).2.2.n = (8 : Int) ∧
    (NewClient 8).n = (8 : Int) :=
  c6_message_size_cap 8 ⟨8⟩ [(5, 10), (6, 6)] false rfl

/-- C2: along a resolution chain the resolver explores at most six hops: a
target held by the peer at hop `n ≤ 6` resolves to its entry, while a chain
whose target sits at hop 7 makes `Resolve` return the `RecursionLimit`
error. -/
theorem c2_resolver_recursion_depth :
    (∀ n : Nat, 1 ≤ n → n ≤ 6 →
        Resolve (chainNet n) chainLocalAddr (entryPubAddr 1) none [chainEntry 1]
            (List.replicate 20 0) = (some chainTargetEntry, none)) ∧
    Resolve (chainNet 7) chainLocalAddr (entryPubAddr 1) none [chainEntry 1]
        (List.replicate 20 0) = (none, some RErr.recursionLimit) := by
  constructor
  · intro n h1 h2
    interval_cases n <;> rfl
  · rfl

/-- Witness for C2 at chain length three. -/
theorem c2_resolver_recursion_depth_witness :
    Resolve (chainNet 3) chainLocalAddr (entryPubAddr 1) none [chainEntry 1]
        (List.replicate 20 0) = (some chainTargetEntry, none) :=
  c2_resolver_recursion_depth.1 3 (by decide) (by decide)

/-- Helper: on a bucket containing the address, the insert is exactly
move-to-front of the first occurrence. -/
theorem insertIntoBucket_of_mem {bucket : List Address} {addr : Address}
    (h : addr ∈ bucket) :
    insertIntoBucket bucket addr = addr :: bucket.erase addr := by
  induction bucket with
  | nil => cases h
  | cons b rest ih =>
      by_cases hb : b = addr
      · subst hb
        unfold insertIntoBucket
        simp [List.findIdx?_cons]
      · have hmem : addr ∈ rest := by
          cases List.mem_cons.mp h with
          | inl h1 => exact absurd h1.symm hb
          | inr h1 => exact h1
        have hsome : ∃ k, rest.findIdx? (fun i => i = addr) = some k := by
          cases hfi : rest.findIdx? (fun i => i = addr) with
          | some k => exact ⟨k, rfl⟩
          | none =>
              rw [List.findIdx?_eq_none_iff] at hfi
              have := hfi addr hmem
              simp at this
        obtain ⟨k, hk⟩ := hsome
        have ih' := ih hmem
        unfold insertIntoBucket at ih'
        rw [hk] at ih'
        have htail : rest.take k ++ rest.drop (k + 1) = rest.erase addr := by
          injection ih'
        have hfind : (b :: rest).findIdx? (fun i => i = addr) = some (k + 1) := by
          rw [List.findIdx?_cons, if_neg (by simp [hb]), List.findIdx?_succ, hk]
          rfl
        unfold insertIntoBucket
        rw [hfind]
        have herase : (b :: rest).erase addr = b :: rest.erase addr :=
          List.erase_cons_tail (by simp [hb])
        rw [herase]
        simp only [List.take_succ_cons, List.drop_succ_cons, List.cons_append]
        rw [htail]

/-- Helper: on a bucket not containing the address, the find loop reports
no index. -/
theorem insertIntoBucket_findIdx_none {bucket : List Address} {addr : Address}
    (h : addr ∉ bucket) :
    bucket.findIdx? (fun i => i = addr) = none := by
  rw [List.findIdx?_eq_none_iff]
  intro x hx
  simp only [decide_eq_false_iff_not]
  intro hc
  exact h (hc ▸ hx)

/-- Helper: the bucket update preserves the size bound and freedom from
duplicates. -/
theorem insertIntoBucket_invariant {bucket : List Address} {addr : Address}
    (hlen : bucket.length ≤ BucketSize) (hnd : bucket.Nodup) :
    (insertIntoBucket bucket addr).length ≤ BucketSize ∧
    (insertIntoBucket bucket addr).Nodup := by
  by_cases hmem : addr ∈ bucket
  · rw [insertIntoBucket_of_mem hmem]
    refine ⟨?_, ?_⟩
    · have h1 : 1 ≤ bucket.length := List.length_pos.mpr (List.ne_nil_of_mem hmem)
      have h2 : (bucket.erase addr).length = bucket.length - 1 :=
        List.length_erase_of_mem hmem
      rw [List.length_cons, h2]
      unfold BucketSize at hlen ⊢
      omega
    · exact List.nodup_cons.mpr ⟨hnd.not_mem_erase, hnd.erase addr⟩
  · unfold insertIntoBucket
    rw [insertIntoBucket_findIdx_none hmem]
    by_cases hfull : bucket.length = BucketSize
    · rw [if_pos hfull]
      refine ⟨?_, ?_⟩
      · rw [List.length_cons, List.length_dropLast]
        unfold BucketSize at hfull ⊢
        omega
      · refine List.nodup_cons.mpr ⟨?_, (List.dropLast_sublist bucket).nodup hnd⟩
        intro hc
        exact hmem ((List.dropLast_sublist bucket).subset hc)
    · rw [if_neg hfull]
      refine ⟨?_, List.nodup_cons.mpr ⟨hmem, hnd⟩⟩
      rw [List.length_cons]
      unfold BucketSize at hlen hfull ⊢
      omega

/-- C5: every routing-table bucket holds at most 20 addresses with no
address appearing twice, and `insertIntoTable` preserves this invariant;
the affected bucket is updated by move-to-front when the address is already
present, by a tail drop followed by a push to the front when the bucket is
full, and by a plain push to the front otherwise. -/
theorem c5_bucket_discipline (ndb : NetDB) (addr : Address)
    (hinv : ∀ b ∈ ndb.table, b.length ≤ BucketSize ∧ b.Nodup) :
    (∀ b ∈ (ndb.insertIntoTable addr).table, b.length ≤ BucketSize ∧ b.Nodup) ∧
    (∀ bucket : List Address,
      (addr ∈ bucket → insertIntoBucket bucket addr = addr :: bucket.erase addr) ∧
      (addr ∉ bucket → bucket.length = BucketSize →
        insertIntoBucket bucket addr = addr :: bucket.dropLast) ∧
      (addr ∉ bucket → bucket.length ≠ BucketSize →
        insertIntoBucket bucket addr = addr :: bucket)) := by
  constructor
  · intro b hb
    have hset : (ndb.insertIntoTable addr).table =
        ndb.table.set (leadingZeroes (addrXor addr ndb.addr))
          (insertIntoBucket
            (ndb.table.getD (leadingZeroes (addrXor addr ndb.addr)) []) addr) := rfl
    rw [hset] at hb
    cases List.mem_or_eq_of_mem_set hb with
    | inl hmem => exact hinv b hmem
    | inr heq =>
        subst heq
        have hbase : (ndb.table.getD (leadingZeroes (addrXor addr ndb.addr)) []).length
              ≤ BucketSize ∧
            (ndb.table.getD (leadingZeroes (addrXor addr ndb.addr)) []).Nodup := by
          by_cases hi : leadingZeroes (addrXor addr ndb.addr) < ndb.table.length
          · rw [List.getD_eq_getElem ndb.table [] hi]
            exact hinv _ (ndb.table.getElem_mem hi)
          · rw [List.getD_eq_default ndb.table [] (by omega)]
            exact ⟨by simp [BucketSize], List.nodup_nil⟩
        exact insertIntoBucket_invariant hbase.1 hbase.2
  · intro bucket
    refine ⟨fun hmem => insertIntoBucket_of_mem hmem, ?_, ?_⟩
    · intro hmem hfull
      unfold insertIntoBucket
      rw [insertIntoBucket_findIdx_none hmem, if_pos hfull]
    · intro hmem hfull
      unfold insertIntoBucket
      rw [insertIntoBucket_findIdx_none hmem, if_neg hfull]

/-- Helper: the bucket update leaves the stored rows untouched. -/
theorem insertIntoTable_rows (ndb : NetDB) (a : Address) :
    (ndb.insertIntoTable a).rows = ndb.rows := rfl

/-- Helper: seed-relation insertion never touches the entry rows. -/
theorem insertSeed_rows (ndb : NetDB) (a b : Address) :
    (ndb.InsertSeed a b).2.rows = ndb.rows := by
  unfold NetDB.InsertSeed
  split
  · split <;> rfl
  · rfl

/-- Helper: a whole seed-list insertion never touches the entry rows. -/
theorem insertSeedList_rows (pairs : List (Address × Address)) :
    ∀ ndb : NetDB, (NetDB.insertSeedList ndb pairs).2.rows = ndb.rows := by
  induction pairs with
  | nil => intro ndb; rfl
  | cons p rest ih =>
      intro ndb
      unfold NetDB.insertSeedList
      cases h : ndb.InsertSeed p.1 p.2 with
      | mk err ndb2 =>
          have hr : ndb2.rows = ndb.rows := by
            have h2 := insertSeed_rows ndb p.1 p.2
            rw [h] at h2
            exact h2
          cases err with
          | some msg => simpa using hr
          | none => simp only []; rw [ih ndb2, hr]

/-- Helper: the update statement rewrites values in place keeping each
row's address, so the address column is unchanged. -/
theorem update_map_address (rows : List Row) (e : Entry) :
    (rows.map fun r =>
        if r.address = addrString e.address then rowOfEntry e r.id else r).map Row.address
      = rows.map Row.address := by
  rw [List.map_map]
  apply List.map_congr_left
  intro r _
  by_cases h : r.address = addrString e.address
  · simp [h, rowOfEntry]
  · simp [h]

/-- Helper: with unique addresses, the update statement affects exactly one
row when the address is present. -/
theorem countP_address_eq_one {rows : List Row} {s : List Nat}
    (hnd : (rows.map Row.address).Nodup) (hmem : s ∈ rows.map Row.address) :
    rows.countP (fun r => r.address = s) = 1 := by
  induction rows with
  | nil => simp at hmem
  | cons r rest ih =>
      rw [List.map_cons, List.nodup_cons] at hnd
      rw [List.map_cons] at hmem
      rw [List.countP_cons]
      by_cases h : r.address = s
      · have hz : rest.countP (fun r2 => r2.address = s) = 0 := by
          rw [List.countP_eq_zero]
          intro a ha
          simp only [decide_eq_true_eq]
          intro hc
          exact hnd.1 (h ▸ hc ▸ List.mem_map_of_mem Row.address ha)
        simp [h, hz]
      · have hm : s ∈ rest.map Row.address := by
          cases List.mem_cons.mp hmem with
          | inl h1 => exact absurd h1.symm h
          | inr h1 => exact h1
        simp [h, ih hnd.2 hm]

/-- Helper: the update statement affects no row when the address is
absent. -/
theorem countP_address_eq_zero {rows : List Row} {s : List Nat}
    (hmem : s ∉ rows.map Row.address) :
    rows.countP (fun r => r.address = s) = 0 := by
  rw [List.countP_eq_zero]
  intro a ha
  simp only [decide_eq_true_eq]
  intro hc
  exact hmem (hc ▸ List.mem_map_of_mem Row.address ha)

/-- Helper: when the entry's address already has a row, `Insert` reports
the update statement's count of matching rows and keeps the address column
unchanged. -/
theorem insert_result_mem (sigOk : SigCheck) (st : NetDB) (e : Entry)
    (hver : Entry.Verify sigOk e = .ok ())
    (hmem : addrString e.address ∈ st.rows.map Row.address) :
    (NetDB.Insert sigOk st e).1
        = (st.rows.countP (fun r => r.address = addrString e.address) : Int) ∧
    (NetDB.Insert sigOk st e).2.2.rows.map Row.address = st.rows.map Row.address := by
  have hpos : 0 < st.rows.countP (fun r => r.address = addrString e.address) := by
    rw [List.countP_pos_iff]
    obtain ⟨r, hr, hre⟩ := List.mem_map.mp hmem
    exact ⟨r, hr, by simp [hre]⟩
  have hrows1 : (st.insertIntoTable e.address).rows = st.rows := rfl
  simp only [NetDB.Insert, NetDB.Update, NetDB.execUpdateEntry, hver, hrows1]
  rw [if_pos (by exact_mod_cast hpos)]
  exact ⟨rfl, update_map_address st.rows e⟩

/-- Helper: when the entry's address has no row yet, `Insert` reports one
affected row from the insert statement and appends the address. -/
theorem insert_result_absent (sigOk : SigCheck) (st : NetDB) (e : Entry)
    (hver : Entry.Verify sigOk e = .ok ())
    (hmem : addrString e.address ∉ st.rows.map Row.address) :
    (NetDB.Insert sigOk st e).1 = 1 ∧
    (NetDB.Insert sigOk st e).2.2.rows.map Row.address
        = st.rows.map Row.address ++ [addrString e.address] := by
  have hcnt : st.rows.countP (fun r => r.address = addrString e.address) = 0 :=
    countP_address_eq_zero hmem
  have hrows1 : (st.insertIntoTable e.address).rows = st.rows := rfl
  have hany : (st.rows.map fun r =>
      if r.address = addrString e.address then rowOfEntry e r.id else r).any
        (fun r => r.address = addrString e.address) = false := by
    rw [List.any_eq_false]
    intro r hr
    obtain ⟨r0, hr0, hr0eq⟩ := List.mem_map.mp hr
    have hr0ne : r0.address ≠ addrString e.address := by
      intro hc
      exact hmem (hc ▸ List.mem_map_of_mem Row.address hr0)
    rw [if_neg hr0ne] at hr0eq
    subst hr0eq
    simpa using hr0ne
  simp only [NetDB.Insert, NetDB.Update, NetDB.execUpdateEntry, hver, hrows1, hcnt]
  rw [if_neg (by decide)]
  simp only [NetDB.insertIntoDB, hany, Bool.false_eq_true, if_false,
    NetDB.insertEntrySeeds]
  rw [insertSeedList_rows]
  refine ⟨by trivial, ?_⟩
  rw [List.map_append, update_map_address st.rows e]
  simp [rowOfEntry]

set_option maxRecDepth 8192 in
/-- Witness for C5: the invariant hypothesis is discharged on a fresh table
and the push-front behaviour is read off at a concrete one-element bucket. -/
theorem c5_bucket_discipline_witness :
    insertIntoBucket [addrA2] addrA1 = addrA1 :: [addrA2] :=
  ((c5_bucket_discipline (ndbBase addrSelfC1) addrA1 (by decide)).2 [addrA2]).2.2
    (by decide) (by decide)

set_option maxRecDepth 8192 in
/-- C3-counterexample: inserting the same entry twice into a fresh store
gives one affected row both times; the second call returns 1, not the
claimed 0, because the SQL update matches the stored row even though every
value is identical. -/
theorem c3_insert_twice_counterexample :
    (NetDB.Insert sigOkAll (ndbBase addrSelfC1) (entryPubAddr 1)).1 = 1 ∧
    (NetDB.Insert sigOkAll (NetDB.Insert sigOkAll (ndbBase addrSelfC1) (entryPubAddr 1)).2.2
        (entryPubAddr 1)).1 = 1 ∧
    decide ((NetDB.Insert sigOkAll
        (NetDB.Insert sigOkAll (ndbBase addrSelfC1) (entryPubAddr 1)).2.2
        (entryPubAddr 1)).1 = 0) = false := by
  have h2 : (NetDB.Insert sigOkAll
      (NetDB.Insert sigOkAll (ndbBase addrSelfC1) (entryPubAddr 1)).2.2
        (entryPubAddr 1)).1 = 1 := by rfl
  refine ⟨rfl, h2, ?_⟩
  rw [decide_eq_false_iff_not]
  rw [h2]
  decide

/-- C3-amended: for every store with unique addresses, inserting a verified
entry twice reports one affected row on the first call (a positive count)
and again one — not zero — on the second: the update statement matches the
row stored by the first insert even when the values are identical. -/
theorem c3_second_insert_affected (sigOk : SigCheck) (ndb : NetDB) (e : Entry)
    (hver : Entry.Verify sigOk e = .ok ())
    (hnd : (ndb.rows.map Row.address).Nodup) :
    0 < (NetDB.Insert sigOk ndb e).1 ∧
    (NetDB.Insert sigOk (NetDB.Insert sigOk ndb e).2.2 e).1 = 1 := by
  by_cases hmem : addrString e.address ∈ ndb.rows.map Row.address
  · obtain ⟨haff, hmap⟩ := insert_result_mem sigOk ndb e hver hmem
    have hcnt := countP_address_eq_one hnd hmem
    constructor
    · rw [haff, hcnt]
      decide
    · obtain ⟨haff2, _⟩ := insert_result_mem sigOk (NetDB.Insert sigOk ndb e).2.2 e hver
        (by rw [hmap]; exact hmem)
      rw [haff2]
      have hcnt2 : ((NetDB.Insert sigOk ndb e).2.2.rows.countP
          (fun r => r.address = addrString e.address)) = 1 :=
        countP_address_eq_one (by rw [hmap]; exact hnd) (by rw [hmap]; exact hmem)
      rw [hcnt2]
      rfl
  · obtain ⟨haff, hmap⟩ := insert_result_absent sigOk ndb e hver hmem
    constructor
    · rw [haff]
      decide
    · have hmem2 : addrString e.address ∈ (NetDB.Insert sigOk ndb e).2.2.rows.map Row.address := by
        rw [hmap]
        exact List.mem_append_right _ (List.mem_singleton.mpr rfl)
      have hnd2 : ((NetDB.Insert sigOk ndb e).2.2.rows.map Row.address).Nodup := by
        rw [hmap]
        exact List.Nodup.append hnd (List.nodup_singleton _)
          (List.disjoint_singleton.mpr hmem)
      obtain ⟨haff2, _⟩ := insert_result_mem sigOk (NetDB.Insert sigOk ndb e).2.2 e hver hmem2
      rw [haff2, countP_address_eq_one hnd2 hmem2]
      rfl

set_option maxRecDepth 8192 in
/-- Witness for C3-amended on a fresh store. -/
theorem c3_second_insert_affected_witness :
    0 < (NetDB.Insert sigOkAll (ndbBase addrSelfC1) (entryPubAddr 1)).1 ∧
    (NetDB.Insert sigOkAll
        (NetDB.Insert sigOkAll (ndbBase addrSelfC1) (entryPubAddr 1)).2.2
        (entryPubAddr 1)).1 = 1 :=
  c3_second_insert_affected sigOkAll (ndbBase addrSelfC1) (entryPubAddr 1) rfl (by decide)

/-- Helper: querying a list of addresses returns one result per address
(the source appends the result whether or not a row was found). -/
theorem queryAddresses_length (as : List Address) :
    ∀ ndb : NetDB, ((ndb.queryAddresses as).1).length = as.length := by
  induction as with
  | nil => intro ndb; rfl
  | cons a rest ih =>
      intro ndb
      simp only [NetDB.queryAddresses, List.length_cons, ih]

/-- Helper: the bucket walk never grows the result beyond `BucketSize`. -/
theorem collectBucket_length (bucket : List Address) :
    ∀ (ndb : NetDB) (ret : List (Option Entry)), ret.length ≤ BucketSize →
      ((ndb.collectBucket bucket ret).1).length ≤ BucketSize := by
  induction bucket with
  | nil => intro ndb ret h; exact h
  | cons a rest ih =>
      intro ndb ret h
      unfold NetDB.collectBucket
      by_cases hge : BucketSize ≤ ret.length
      · rw [if_pos hge]
        exact h
      · rw [if_neg hge]
        apply ih
        rw [List.length_append]
        unfold BucketSize at hge ⊢
        simp only [List.length_singleton]
        omega

/-- Helper: the outward expansion loop never grows the result beyond
`BucketSize`. -/
theorem findClosestLoop_length (fuel : Nat) :
    ∀ (ndb : NetDB) (addr : Address) (index : Nat) (ret : List (Option Entry)) (i : Nat),
      ret.length ≤ BucketSize →
      ((ndb.findClosestLoop addr index ret i fuel).1).length ≤ BucketSize := by
  induction fuel with
  | zero => intro ndb addr index ret i h; exact h
  | succ fuel ih =>
      intro ndb addr index ret i h
      unfold NetDB.findClosestLoop
      by_cases hc : (i ≤ index ∨ index + i ≤ addr.length * 8) ∧ ret.length < BucketSize
      · rw [if_pos hc]
        apply ih
        have h1 : ((ndb.passLow index i ret).1).length ≤ BucketSize := by
          unfold NetDB.passLow
          split
          · exact collectBucket_length _ _ _ h
          · exact h
        unfold NetDB.passHigh
        split
        · exact collectBucket_length _ _ _ h1
        · exact h1
      · rw [if_neg hc]
        exact h

/-- C1-amended: `FindClosest` returns at most 20 entries; the entries come
in routing-table bucket order, expanding outward from the target's bucket,
and are not in general sorted by distance to the target. -/
theorem c1_find_closest_at_most_20 (ndb : NetDB) (addr : Address) :
    ((NetDB.FindClosest ndb addr).1).length ≤ 20 := by
  unfold NetDB.FindClosest
  split
  · rename_i hfull
    rw [queryAddresses_length, hfull]
    decide
  · exact findClosestLoop_length _ ndb addr _ [] 0 (by simp [BucketSize])

set_option maxRecDepth 200000 in
/-- C1-counterexample: on a reachable two-entry state the first returned
entry is strictly farther from the target than the second (the central
bucket is even walked twice, duplicating both entries), so the result is
not sorted by XOR distance in strictly ascending order. -/
theorem c1_unsorted_counterexample :
    ((NetDB.FindClosest ndbC1 addrA1).1.map (fun kv => kv.map Entry.address))
        = [some addrA2, some addrA1, some addrA1, some addrA2] ∧
    addrLess (addrXor addrA2 addrA1) (addrXor addrA1 addrA1) = false ∧
    addrLess (addrXor addrA1 addrA1) (addrXor addrA2 addrA1) = true := by
  exact ⟨by rfl, rfl, rfl⟩

end Zif
